import Mathlib

/-!
Verification of the `bundle` compression façade (src/redist/bundle.hpp).

The header defines a codec-selection layer: algorithm identifiers (an enum),
a high-level buffer-owning `pack`/`unpack` pair, a benchmarking routine
`measures` producing one `measure` record per candidate encoding, and three
selection routines `find_smallest_compressor`, `find_fastest_compressor`,
`find_fastest_decompressor`.

Shallow embedding conventions:
- byte buffers are `List Nat`;
- C++ `double` arithmetic on sizes/times is modelled with `ℚ` (the values
  involved are exact small rationals, no rounding occurs in the expressions
  the header computes);
- the string-level codec entry points `z`/`unz` (declared at bundle.hpp:29-30
  but implemented in an external translation unit by the codec libraries) are
  parameters `zf unzf : List Nat → Nat → List Nat`, where `zf original scheme`
  is `z(original, scheme)`;
- wall-clock encode/decode durations are oracle parameters
  `tE tD : Nat → ℚ` (milliseconds measured for a given scheme);
- a thrown C++ exception is `Except.error`; `std::out_of_range` (thrown by
  `.at(0)` on an empty container) is the only exception the header itself can
  raise.
-/

namespace bundle

/-- bundle.hpp:15 — per-library identifiers. -/
def UNDEFINED : Nat := 0
def SHOCO : Nat := 1
def LZ4 : Nat := 2
def MINIZ : Nat := 3
def LZLIB : Nat := 4

/-- bundle.hpp:17 — per-family aliases. -/
def NONE : Nat := UNDEFINED
def ENTROPY : Nat := SHOCO
def LZ77 : Nat := LZ4
def DEFLATE : Nat := MINIZ
def LZMA : Nat := LZLIB

/-- bundle.hpp:19 — per-context aliases. -/
def UNCOMPRESSED : Nat := NONE
def ASCII : Nat := ENTROPY
def FAST : Nat := LZ77
def DEFAULT : Nat := DEFLATE
def EXTRA : Nat := LZMA

/-- bundle.hpp:22 — "dont compress if compression ratio is below 5%". -/
def NO_COMPRESSION_TRESHOLD : Nat := 5

/-- bundle.hpp:72-75 — the default candidate list. -/
def encodings : List Nat := [LZ4, SHOCO, MINIZ, LZLIB, NONE]

/-- bundle.hpp:78-90 — one benchmark record (`struct measure`), with the
field initialisers of the source. `str()` (pretty printing) is omitted. -/
structure measure where
  q : Nat := NONE
  ratio : ℚ := 0
  enctime : ℚ := 0
  dectime : ℚ := 0
  memusage : ℚ := 0
  pass : Bool := false
deriving Repr, DecidableEq

/-- The body of the `for( auto scheme : encodings )` loop of `measures`
(bundle.hpp:97-119), for one `scheme`. `zipped` is the value of the local
`std::string zipped` at the top of this iteration (it is declared outside
the loop at bundle.hpp:95, so it persists across iterations). The second
component of the result records the argument passed to `unz` when the
decode step runs (`none` when `do_dec` is off) — the decode-input trace.

Line-by-line: under `do_enc` (lines 102-108) the record gets
`enctime` and `ratio = 100 - 100 * (zipped.size() / original.size())` and
`zipped` is overwritten with `z(original, scheme)`; under `do_dec`
(lines 110-116) `unzipped = unz(zipped, scheme)`, the record gets `dectime`
and `pass = (original == unzipped)`; line 118 then unconditionally
overwrites `pass` with `original == unzipped` if all of
`do_verify && do_enc && do_dec` hold and with `true` otherwise (the stale
`unzipped` is only read when `do_dec` held, in which case it was freshly
assigned in this iteration). -/
def measureOne (zf unzf : List Nat → Nat → List Nat) (tE tD : Nat → ℚ)
    (do_enc do_dec do_verify : Bool) (original zipped : List Nat)
    (scheme : Nat) : measure × Option (List Nat) :=
  let zipped1 := if do_enc then zf original scheme else zipped
  let r1 : measure :=
    if do_enc then
      { q := scheme, enctime := tE scheme,
        ratio := 100 - 100 * ((zipped1.length : ℚ) / (original.length : ℚ)) }
    else { q := scheme }
  let unzipped1 := unzf zipped1 scheme
  let r2 : measure :=
    if do_dec then
      { r1 with dectime := tD scheme, pass := decide (original = unzipped1) }
    else r1
  let r3 : measure :=
    { r2 with pass := if do_verify && do_enc && do_dec
                      then decide (original = unzipped1) else true }
  (r3, if do_dec then some zipped1 else none)

/-- bundle.hpp:92-122 — the loop of `measures`, threading the cross-iteration
`zipped` buffer, paired with the decode-input trace. The `unzipped` local
needs no threading: it is only read in the same iteration that assigns it
(see `measureOne`). -/
def measuresTr (zf unzf : List Nat → Nat → List Nat) (tE tD : Nat → ℚ)
    (do_enc do_dec do_verify : Bool) (original : List Nat) :
    List Nat → List Nat → List (measure × Option (List Nat))
  | _zipped, [] => []
  | zipped, scheme :: rest =>
      measureOne zf unzf tE tD do_enc do_dec do_verify original zipped scheme ::
      measuresTr zf unzf tE tD do_enc do_dec do_verify original
        (if do_enc then zf original scheme else zipped) rest

/-- bundle.hpp:92-122 — `measures`: the records, in candidate order. The
`zipped` local starts as the empty `std::string` (bundle.hpp:95). -/
def measures (zf unzf : List Nat → Nat → List Nat) (tE tD : Nat → ℚ)
    (do_enc do_dec do_verify : Bool) (original : List Nat)
    (es : List Nat) : List measure :=
  (measuresTr zf unzf tE tD do_enc do_dec do_verify original [] es).map Prod.fst

/-- bundle.hpp:125-139 — `find_smallest_compressor`. The instantiation
`measures< true, false, false >` binds `do_enc = true, do_dec = false,
do_verify = false`. The guard (line 132) is
`r.pass && r.ratio > ratio && r.ratio >= (100 - NO_COMPRESSION_TRESHOLD / 100.0)`;
note `NO_COMPRESSION_TRESHOLD / 100.0` is double division (5 / 100.0 = 0.05),
so the constant on the right is 99.95. -/
def find_smallest_compressor (zf unzf : List Nat → Nat → List Nat)
    (tE tD : Nat → ℚ) (original : List Nat) (es : List Nat) : Nat :=
  ((measures zf unzf tE tD true false false original es).foldl
    (fun acc r =>
      if r.pass = true ∧ acc.2 < r.ratio ∧
         (100 : ℚ) - (NO_COMPRESSION_TRESHOLD : ℚ) / 100 ≤ r.ratio
      then (r.q, r.ratio) else acc)
    (NONE, (0 : ℚ))).1

/-- bundle.hpp:141-155 — `find_fastest_compressor`: running minimum of
`enctime` over passing records, accumulator initialised to
`(NONE, 9999999)`. -/
def find_fastest_compressor (zf unzf : List Nat → Nat → List Nat)
    (tE tD : Nat → ℚ) (original : List Nat) (es : List Nat) : Nat :=
  ((measures zf unzf tE tD true false false original es).foldl
    (fun acc r =>
      if r.pass = true ∧ r.enctime < acc.2 then (r.q, r.enctime) else acc)
    (NONE, (9999999 : ℚ))).1

/-- bundle.hpp:157-171 — `find_fastest_decompressor`: running minimum of
`dectime`, with `measures< false, true, false >` (`do_enc = false,
do_dec = true, do_verify = false`). -/
def find_fastest_decompressor (zf unzf : List Nat → Nat → List Nat)
    (tE tD : Nat → ℚ) (original : List Nat) (es : List Nat) : Nat :=
  ((measures zf unzf tE tD false true false original es).foldl
    (fun acc r =>
      if r.pass = true ∧ r.dectime < acc.2 then (r.q, r.dectime) else acc)
    (NONE, (9999999 : ℚ))).1

/-- The exceptions the header's own code can raise: `std::out_of_range`,
thrown by `container.at(0)` on an empty container. -/
inductive cppError where
  | out_of_range
deriving Repr, DecidableEq

/-- `container.resize(n)` semantics: keep the first `n` elements, pad with
value-initialised elements (0) when growing. The result always has length
`n`. -/
def cppResize (buf : List Nat) (n : Nat) : List Nat :=
  buf.take n ++ List.replicate (n - buf.length) 0

/-- bundle.hpp:44-59 — the high-level buffer-owning `pack` template.
`packf q bin cap` models the external low-level
`pack(q, in, len, out, zlen)` (declared at bundle.hpp:34, implemented by the
codec libraries): on success `some (written, zlen)` where `written` is the
content the codec wrote into the output buffer and `zlen` the actual
compressed size it reported; `none` on failure. `boundf` models `bound`.

Control flow of the template: resize the output to `bound(q, len)` (lines
51-52); evaluate `&buffer_in.at(0)` and `&buffer_out.at(0)` (line 55) — each
throws `std::out_of_range` when its container is empty; then line 58:
on codec success resize the output to the reported `zlen` and return true,
on codec failure assign a fresh empty container and return false. -/
def pack_hl (boundf : Nat → Nat → Nat)
    (packf : Nat → List Nat → Nat → Option (List Nat × Nat))
    (q : Nat) (buffer_in : List Nat) : Except cppError (Bool × List Nat) :=
  let zlen := boundf q buffer_in.length
  let buffer_out := cppResize [] zlen
  if buffer_in.length = 0 then Except.error cppError.out_of_range
  else if buffer_out.length = 0 then Except.error cppError.out_of_range
  else
    match packf q buffer_in zlen with
    | some (written, zlen2) => Except.ok (true, cppResize written zlen2)
    | none => Except.ok (false, [])

/-- bundle.hpp:61-70 — the high-level `unpack` template. `buffer_out0` is the
output container as pre-sized by the caller ("must be resized properly before
calling this function", line 67); `zlen` is its size. `unpackf q zin cap`
models the external low-level `unpack` (bundle.hpp:35): `some written` on
success (the decompressed bytes written into the output buffer), `none` on
failure. `&buffer_in.at(0)` / `&buffer_out.at(0)` throw on empty containers
as in `pack`. The output container is not resized afterwards, so it keeps
length `zlen`. -/
def unpack_hl (unpackf : Nat → List Nat → Nat → Option (List Nat))
    (q : Nat) (buffer_out0 : List Nat) (buffer_in : List Nat) :
    Except cppError (Bool × List Nat) :=
  let zlen := buffer_out0.length
  if buffer_in.length = 0 then Except.error cppError.out_of_range
  else if buffer_out0.length = 0 then Except.error cppError.out_of_range
  else
    match unpackf q buffer_in zlen with
    | some written => Except.ok (true, cppResize written zlen)
    | none => Except.ok (false, buffer_out0)

/-- Modelled from the spec: the collaborator contract of the low-level
`pack`/`unpack` pair (declared at bundle.hpp:34-35; their bodies live in the
external codec libraries, not in this repository). Spec §6: "deterministic
pack/unpack …, `unpack(pack(x)) == x` for all x within the codec's supported
input domain"; and a successful pack of a nonempty input produces at least
one output byte (a codec must emit something to reconstruct a nonempty
input). Concretely: whenever `packf` succeeds with written buffer `w` and
reported size `zl`, the `zl`-byte compressed stream `cppResize w zl` decodes,
under the same identifier and the original length, back to the input. -/
def CodecContract (packf : Nat → List Nat → Nat → Option (List Nat × Nat))
    (unpackf : Nat → List Nat → Nat → Option (List Nat)) : Prop :=
  ∀ q x cap w zl, packf q x cap = some (w, zl) →
    (x ≠ [] → 0 < zl) ∧ unpackf q (cppResize w zl) x.length = some x

/-! ### Helper lemmas -/

/-- Closed form of one loop iteration: each field of the record, and the
decode input, as a function of the flags, the scheme and the incoming
`zipped` state. -/
lemma measureOne_eval (zf unzf : List Nat → Nat → List Nat) (tE tD : Nat → ℚ)
    (de dd dv : Bool) (original zipped : List Nat) (s : Nat) :
    measureOne zf unzf tE tD de dd dv original zipped s =
      ({ q := s,
         ratio := if de then
             100 - 100 * (((zf original s).length : ℚ) / (original.length : ℚ))
           else 0,
         enctime := if de then tE s else 0,
         dectime := if dd then tD s else 0,
         memusage := 0,
         pass := if dv && de && dd then
             decide (original = unzf (if de then zf original s else zipped) s)
           else true },
       if dd then some (if de then zf original s else zipped) else none) := by
  unfold measureOne
  cases de <;> cases dd <;> cases dv <;> simp

/-- With the encode phase on, an iteration does not depend on the incoming
`zipped` state (the buffer is overwritten before any use). -/
lemma measureOne_enc_indep (zf unzf : List Nat → Nat → List Nat)
    (tE tD : Nat → ℚ) (dd dv : Bool) (original zipped zipped' : List Nat)
    (s : Nat) :
    measureOne zf unzf tE tD true dd dv original zipped s =
      measureOne zf unzf tE tD true dd dv original zipped' s := by
  rw [measureOne_eval, measureOne_eval]
  simp

/-- The benchmark loop is a `map`: each candidate's (record, decode-input)
pair is a function of that candidate alone (plus the incoming `zipped`,
which stays at its initial value whenever the encode phase is off). -/
lemma measuresTr_eq_map (zf unzf : List Nat → Nat → List Nat)
    (tE tD : Nat → ℚ) (de dd dv : Bool) (original : List Nat) :
    ∀ (es : List Nat) (zipped : List Nat),
      measuresTr zf unzf tE tD de dd dv original zipped es =
        es.map (fun s => measureOne zf unzf tE tD de dd dv original zipped s) := by
  intro es
  induction es with
  | nil => intro zipped; rfl
  | cons s rest ih =>
      intro zipped
      cases de with
      | false => simp [measuresTr, ih]
      | true =>
          simp only [measuresTr, if_pos rfl, List.map_cons, List.cons.injEq,
            true_and, ih]
          exact List.map_congr_left fun a _ =>
            measureOne_enc_indep zf unzf tE tD dd dv original _ zipped a

/-- `measures` as a `map` of per-candidate records. -/
lemma measures_eq_map (zf unzf : List Nat → Nat → List Nat) (tE tD : Nat → ℚ)
    (de dd dv : Bool) (original : List Nat) (es : List Nat) :
    measures zf unzf tE tD de dd dv original es =
      es.map (fun s => (measureOne zf unzf tE tD de dd dv original [] s).1) := by
  unfold measures
  rw [measuresTr_eq_map, List.map_map]
  rfl

lemma measures_length (zf unzf : List Nat → Nat → List Nat) (tE tD : Nat → ℚ)
    (de dd dv : Bool) (original : List Nat) (es : List Nat) :
    (measures zf unzf tE tD de dd dv original es).length = es.length := by
  rw [measures_eq_map, List.length_map]

/-- Every record of a `measures` run comes from some candidate. -/
lemma measures_mem (zf unzf : List Nat → Nat → List Nat) (tE tD : Nat → ℚ)
    (de dd dv : Bool) (original : List Nat) (es : List Nat) (r : measure)
    (hr : r ∈ measures zf unzf tE tD de dd dv original es) :
    ∃ s ∈ es, r = (measureOne zf unzf tE tD de dd dv original [] s).1 := by
  rw [measures_eq_map] at hr
  rcases List.mem_map.mp hr with ⟨s, hs, hmap⟩
  exact ⟨s, hs, hmap.symm⟩

lemma cppResize_length (buf : List Nat) (n : Nat) :
    (cppResize buf n).length = n := by
  simp only [cppResize, List.length_append, List.length_take,
    List.length_replicate]
  omega

lemma cppResize_self (buf : List Nat) : cppResize buf buf.length = buf := by
  simp [cppResize]


/-- Record produced for a candidate when the encode phase is on. -/
lemma measureOne_fst_enc (zf unzf : List Nat → Nat → List Nat)
    (tE tD : Nat → ℚ) (dd dv : Bool) (original zipped : List Nat) (s : Nat) :
    (measureOne zf unzf tE tD true dd dv original zipped s).1 =
      { q := s,
        ratio := 100 - 100 * (((zf original s).length : ℚ) / (original.length : ℚ)),
        enctime := tE s,
        dectime := if dd then tD s else 0,
        memusage := 0,
        pass := if dv && dd then decide (original = unzf (zf original s) s)
                else true } := by
  rw [measureOne_eval]
  cases dd <;> cases dv <;> simp

/-- Record produced for a candidate when the encode phase is off: `ratio` and
`enctime` keep their initialisers, and `pass` is true no matter what the
decode step produced (line 118 of the source overwrites it). -/
lemma measureOne_fst_noenc (zf unzf : List Nat → Nat → List Nat)
    (tE tD : Nat → ℚ) (dd dv : Bool) (original zipped : List Nat) (s : Nat) :
    (measureOne zf unzf tE tD false dd dv original zipped s).1 =
      { q := s, ratio := 0, enctime := 0,
        dectime := if dd then tD s else 0, memusage := 0, pass := true } := by
  rw [measureOne_eval]
  cases dd <;> cases dv <;> simp

/-- The decode step, when it runs, is applied to the current `zipped` buffer:
the freshly encoded bytes when the encode phase is on, the incoming buffer
otherwise. -/
lemma measureOne_snd (zf unzf : List Nat → Nat → List Nat)
    (tE tD : Nat → ℚ) (de dd dv : Bool) (original zipped : List Nat) (s : Nat) :
    (measureOne zf unzf tE tD de dd dv original zipped s).2 =
      if dd then some (if de then zf original s else zipped) else none := by
  rw [measureOne_eval]

/-- The identifier field of every record is its candidate. -/
lemma measureOne_q (zf unzf : List Nat → Nat → List Nat)
    (tE tD : Nat → ℚ) (de dd dv : Bool) (original zipped : List Nat) (s : Nat) :
    (measureOne zf unzf tE tD de dd dv original zipped s).1.q = s := by
  rw [measureOne_eval]

/-! ### Concrete oracles used by the witness theorems -/

/-- A toy codec: every scheme compresses any payload to one byte. -/
def zW : List Nat → Nat → List Nat := fun _ _ => [0]

/-- A toy decompressor that reproduces the payload `[1]`. -/
def unzW : List Nat → Nat → List Nat := fun _ _ => [1]

/-- A faulty decompressor: returns `[9]`, never the original payload `[1]`. -/
def unzBad : List Nat → Nat → List Nat := fun _ _ => [9]

/-- A clock oracle reporting 0 ms for every scheme. -/
def tW : Nat → ℚ := fun _ => 0

/-! ### Claims about `measures` -/

/-- Claim C2: a record's `pass` field is true iff round-trip decompression
reproduced the original byte-for-byte, when verification was requested
(`do_verify`, `do_enc`, `do_dec` all enabled); when verification was not
requested, `pass` is true unconditionally. -/
theorem measures_pass_iff_roundtrip (zf unzf : List Nat → Nat → List Nat)
    (tE tD : Nat → ℚ) (de dd dv : Bool) (original es : List Nat) (r : measure)
    (hr : r ∈ measures zf unzf tE tD de dd dv original es) :
    ((dv && de && dd) = true →
      (r.pass = true ↔ original = unzf (zf original r.q) r.q))
    ∧ ((dv && de && dd) = false → r.pass = true) := by
  obtain ⟨s, _hs, rfl⟩ := measures_mem zf unzf tE tD de dd dv original es r hr
  constructor
  · intro h
    have hde : de = true := by revert h; cases de <;> simp
    have hdd : dd = true := by revert h; cases dd <;> simp
    have hdv : dv = true := by revert h; cases dv <;> simp
    subst hde; subst hdd; subst hdv
    rw [measureOne_fst_enc]
    simp
  · intro h
    rw [measureOne_eval]
    simp [h]

/-- Claim C2 witness: toy codec `zW`/`unzW` on payload `[1]`, candidate
`LZ4`, full verification; the round trip reproduces `[1]` and the produced
record has `pass = true`. -/
theorem measures_pass_iff_roundtrip_witness :
    ((true && true && true) = true →
      ((measure.mk LZ4 0 0 0 0 true).pass = true ↔ [1] = unzW (zW [1] LZ4) LZ4))
    ∧ ((true && true && true) = false →
      (measure.mk LZ4 0 0 0 0 true).pass = true) :=
  measures_pass_iff_roundtrip zW unzW tW tW true true true [1] [LZ4]
    (measure.mk LZ4 0 0 0 0 true)
    (by rw [measures_eq_map]
        simp only [List.map_cons, List.map_nil, measureOne_fst_enc,
          List.mem_singleton]
        simp [zW, unzW, tW, measure.mk.injEq])

/-- Claim C3: `measures` returns exactly one record per candidate, in the
order supplied (the identifiers of the records are the candidate list
itself); each record is a function of its own candidate alone (the run is a
`map`, so one failing codec never perturbs the records of the others); and a
candidate that fails to round-trip gets `pass = false`. Stated for the
fully verified run `do_enc = do_dec = do_verify = true`. -/
theorem measures_per_candidate_robust (zf unzf : List Nat → Nat → List Nat)
    (tE tD : Nat → ℚ) (original es : List Nat) :
    (measures zf unzf tE tD true true true original es).map measure.q = es
    ∧ measures zf unzf tE tD true true true original es =
        es.map (fun s => (measureOne zf unzf tE tD true true true original [] s).1)
    ∧ ∀ r ∈ measures zf unzf tE tD true true true original es,
        unzf (zf original r.q) r.q ≠ original → r.pass = false := by
  refine ⟨?_, measures_eq_map zf unzf tE tD true true true original es, ?_⟩
  · rw [measures_eq_map, List.map_map]
    have h : ∀ s ∈ es,
        (measure.q ∘ fun s => (measureOne zf unzf tE tD true true true original [] s).1) s
          = id s := fun s _ => measureOne_q zf unzf tE tD true true true original [] s
    rw [List.map_congr_left h, List.map_id]
  · intro r hr hfail
    obtain ⟨s, _hs, rfl⟩ := measures_mem zf unzf tE tD true true true original es r hr
    rw [measureOne_fst_enc] at hfail ⊢
    simp at hfail ⊢
    exact fun heq => hfail heq.symm

/-- Claim C3 witness: with the faulty decompressor `unzBad` on payload `[1]`,
the single candidate still yields exactly one record, in order, and that
record has `pass = false`. -/
theorem measures_per_candidate_robust_witness :
    (measures zW unzBad tW tW true true true [1] [LZ4]).map measure.q = [LZ4]
    ∧ (measure.mk LZ4 0 0 0 0 false).pass = false := by
  have h := measures_per_candidate_robust zW unzBad tW tW [1] [LZ4]
  refine ⟨h.1, h.2.2 (measure.mk LZ4 0 0 0 0 false) ?_ (by simp [zW, unzBad])⟩
  rw [measures_eq_map]
  simp only [List.map_cons, List.map_nil, measureOne_fst_enc,
    List.mem_singleton]
  simp [zW, unzBad, tW, measure.mk.injEq]

/-- Claim C4: when the encode phase runs and the payload is nonempty, a
record's `ratio` equals `100 * (1 - compressed_size / original_size)`;
a ratio of 0 means no size reduction, and a negative ratio means the output
expanded. -/
theorem measures_ratio_formula (zf unzf : List Nat → Nat → List Nat)
    (tE tD : Nat → ℚ) (dd dv : Bool) (original es : List Nat)
    (hne : original ≠ []) (r : measure)
    (hr : r ∈ measures zf unzf tE tD true dd dv original es) :
    r.ratio = 100 * (1 - ((zf original r.q).length : ℚ) / (original.length : ℚ))
    ∧ (r.ratio = 0 ↔ (zf original r.q).length = original.length)
    ∧ (r.ratio < 0 ↔ original.length < (zf original r.q).length) := by
  obtain ⟨s, _hs, rfl⟩ := measures_mem zf unzf tE tD true dd dv original es r hr
  rw [measureOne_fst_enc]
  dsimp only
  have ho : (0 : ℚ) < (original.length : ℚ) := by
    have hl : original.length ≠ 0 := fun h => hne (List.length_eq_zero.mp h)
    exact_mod_cast Nat.pos_of_ne_zero hl
  have ho' : (original.length : ℚ) ≠ 0 := ne_of_gt ho
  refine ⟨by ring, ?_, ?_⟩
  · constructor
    · intro h
      have h1 : ((zf original s).length : ℚ) / (original.length : ℚ) = 1 := by
        linarith
      field_simp at h1
      exact_mod_cast h1
    · intro h
      have h2 : ((zf original s).length : ℚ) = (original.length : ℚ) := by
        exact_mod_cast h
      rw [h2, div_self ho']
      ring
  · constructor
    · intro h
      have h1 : 1 < ((zf original s).length : ℚ) / (original.length : ℚ) := by
        linarith
      have h2 := (one_lt_div ho).mp h1
      exact_mod_cast h2
    · intro h
      have h2 : (original.length : ℚ) < ((zf original s).length : ℚ) := by
        exact_mod_cast h
      have h1 := (one_lt_div ho).mpr h2
      linarith

/-- Claim C4 witness: with the toy codec on the one-byte payload `[1]`, the
produced record has ratio 0, which indeed means "no size reduction". -/
theorem measures_ratio_formula_witness :
    (measure.mk LZ4 0 0 0 0 true).ratio =
        100 * (1 - ((zW [1] LZ4).length : ℚ) / ((([1] : List Nat)).length : ℚ))
    ∧ ((measure.mk LZ4 0 0 0 0 true).ratio = 0 ↔
        (zW [1] LZ4).length = (([1] : List Nat)).length)
    ∧ ((measure.mk LZ4 0 0 0 0 true).ratio < 0 ↔
        (([1] : List Nat)).length < (zW [1] LZ4).length) :=
  measures_ratio_formula zW unzW tW tW true true [1] [LZ4] (by simp)
    (measure.mk LZ4 0 0 0 0 true)
    (by rw [measures_eq_map]
        simp only [List.map_cons, List.map_nil, measureOne_fst_enc,
          List.mem_singleton]
        simp [zW, unzW, tW, measure.mk.injEq])

/-! ### Fold lemmas for the selection loops -/

/-- If no record satisfies `pass` together with the ratio threshold, the
selection loop of `find_smallest_compressor` never updates its accumulator. -/
lemma foldl_smallest_skip (rs : List measure) :
    ∀ acc : Nat × ℚ,
      (∀ r ∈ rs, ¬(r.pass = true ∧
          (100 : ℚ) - (NO_COMPRESSION_TRESHOLD : ℚ) / 100 ≤ r.ratio)) →
      rs.foldl (fun acc r =>
          if r.pass = true ∧ acc.2 < r.ratio ∧
             (100 : ℚ) - (NO_COMPRESSION_TRESHOLD : ℚ) / 100 ≤ r.ratio
          then (r.q, r.ratio) else acc) acc = acc := by
  induction rs with
  | nil => intro acc _; rfl
  | cons r rest ih =>
      intro acc h
      rw [List.foldl_cons, if_neg]
      · exact ih acc fun x hx => h x (List.mem_cons_of_mem _ hx)
      · intro hcond
        exact h r (List.mem_cons_self _ _) ⟨hcond.1, hcond.2.2⟩

/-- If no record satisfies `pass` with an encode time below the 9999999
sentinel, the loop of `find_fastest_compressor` never updates its
accumulator (whose time component only ever decreases from the sentinel). -/
lemma foldl_enctime_skip (rs : List measure) :
    ∀ acc : Nat × ℚ, acc.2 ≤ 9999999 →
      (∀ r ∈ rs, ¬(r.pass = true ∧ r.enctime < 9999999)) →
      rs.foldl (fun acc r =>
          if r.pass = true ∧ r.enctime < acc.2 then (r.q, r.enctime) else acc)
        acc = acc := by
  induction rs with
  | nil => intro acc _ _; rfl
  | cons r rest ih =>
      intro acc hacc h
      rw [List.foldl_cons, if_neg]
      · exact ih acc hacc fun x hx => h x (List.mem_cons_of_mem _ hx)
      · intro hcond
        exact h r (List.mem_cons_self _ _)
          ⟨hcond.1, lt_of_lt_of_le hcond.2 hacc⟩

/-- Same skipping lemma for the decode-time loop of
`find_fastest_decompressor`. -/
lemma foldl_dectime_skip (rs : List measure) :
    ∀ acc : Nat × ℚ, acc.2 ≤ 9999999 →
      (∀ r ∈ rs, ¬(r.pass = true ∧ r.dectime < 9999999)) →
      rs.foldl (fun acc r =>
          if r.pass = true ∧ r.dectime < acc.2 then (r.q, r.dectime) else acc)
        acc = acc := by
  induction rs with
  | nil => intro acc _ _; rfl
  | cons r rest ih =>
      intro acc hacc h
      rw [List.foldl_cons, if_neg]
      · exact ih acc hacc fun x hx => h x (List.mem_cons_of_mem _ hx)
      · intro hcond
        exact h r (List.mem_cons_self _ _)
          ⟨hcond.1, lt_of_lt_of_le hcond.2 hacc⟩

/-- Running-minimum fold with no candidate below the initial time: the
accumulator survives unchanged. -/
lemma foldl_min_no_update (tE : Nat → ℚ) :
    ∀ (es : List Nat) (q0 : Nat) (t0 : ℚ), (∀ e ∈ es, t0 ≤ tE e) →
      es.foldl (fun acc e => if tE e < acc.2 then (e, tE e) else acc) (q0, t0)
        = (q0, t0) := by
  intro es
  induction es with
  | nil => intro q0 t0 _; rfl
  | cons e rest ih =>
      intro q0 t0 h
      rw [List.foldl_cons, if_neg (not_lt.mpr (h e (List.mem_cons_self _ _)))]
      exact ih q0 t0 fun x hx => h x (List.mem_cons_of_mem _ hx)

/-- Running-minimum fold, strict-update variant: when some candidate beats
the initial time, the result is the first candidate attaining the minimum
time of the list (ties broken in favour of the earlier candidate). -/
lemma foldl_first_min (tE : Nat → ℚ) :
    ∀ (es : List Nat) (q0 : Nat) (t0 : ℚ), (∃ e ∈ es, tE e < t0) →
      ∃ i : Fin es.length,
        es.foldl (fun acc e => if tE e < acc.2 then (e, tE e) else acc) (q0, t0)
          = (es.get i, tE (es.get i))
        ∧ tE (es.get i) < t0
        ∧ (∀ j : Fin es.length, tE (es.get i) ≤ tE (es.get j))
        ∧ (∀ j : Fin es.length, j < i → tE (es.get i) < tE (es.get j)) := by
  intro es
  induction es with
  | nil =>
      intro q0 t0 h
      rcases h with ⟨e, he, _⟩
      cases he
  | cons e rest ih =>
      intro q0 t0 h
      rw [List.foldl_cons]
      by_cases he : tE e < t0
      · rw [if_pos he]
        by_cases hrest : ∃ x ∈ rest, tE x < tE e
        · obtain ⟨i, hfold, hlt, hmin, hfirst⟩ := ih e (tE e) hrest
          refine ⟨i.succ, ?_, ?_, ?_, ?_⟩
          · rw [hfold]; simp
          · simpa using lt_trans hlt he
          · intro j
            refine Fin.cases ?_ ?_ j
            · simpa using le_of_lt hlt
            · intro j'; simpa using hmin j'
          · intro j
            refine Fin.cases ?_ ?_ j
            · intro _; simpa using hlt
            · intro j' hj'
              have hj : j' < i := by
                simpa [Fin.succ_lt_succ_iff] using hj'
              simpa using hfirst j' hj
        · push_neg at hrest
          rw [foldl_min_no_update tE rest e (tE e) hrest]
          refine ⟨⟨0, Nat.succ_pos _⟩, rfl, he, ?_, ?_⟩
          · intro j
            refine Fin.cases ?_ ?_ j
            · exact le_refl _
            · intro j'; simpa using hrest (rest.get j') (rest.get_mem _ _)
          · intro j hj
            exact absurd hj (by simp [Fin.lt_def])
      · rw [if_neg he]
        have h' : ∃ x ∈ rest, tE x < t0 := by
          rcases h with ⟨x, hx, hxlt⟩
          rcases List.mem_cons.mp hx with rfl | hx'
          · exact absurd hxlt he
          · exact ⟨x, hx', hxlt⟩
        obtain ⟨i, hfold, hlt, hmin, hfirst⟩ := ih q0 t0 h'
        have ht0 : t0 ≤ tE e := le_of_not_lt he
        refine ⟨i.succ, ?_, ?_, ?_, ?_⟩
        · rw [hfold]; simp
        · simpa using hlt
        · intro j
          refine Fin.cases ?_ ?_ j
          · simpa using le_of_lt (lt_of_lt_of_le hlt ht0)
          · intro j'; simpa using hmin j'
        · intro j
          refine Fin.cases ?_ ?_ j
          · intro _; simpa using lt_of_lt_of_le hlt ht0
          · intro j' hj'
            have hj : j' < i := by
              simpa [Fin.succ_lt_succ_iff] using hj'
            simpa using hfirst j' hj

/-- A clock oracle for the fastest-encode witness: `SHOCO` takes 1 ms,
everything else 3 ms. -/
def tWfast : Nat → ℚ := fun e => if e = SHOCO then 1 else 3

/-- Claim C5: `find_fastest_compressor` returns, among records with
`pass = true` (which is all of them: this run requests no verification, so
every record passes), the identifier with the lowest encode time, ties going
to the first-encountered candidate in the supplied order. Stated under the
physical assumption that every measured encode time is below the 9999999 ms
sentinel the accumulator starts from. -/
theorem find_fastest_compressor_min (zf unzf : List Nat → Nat → List Nat)
    (tE tD : Nat → ℚ) (original es : List Nat)
    (hne : es ≠ []) (hlt : ∀ e ∈ es, tE e < 9999999) :
    (∀ r ∈ measures zf unzf tE tD true false false original es, r.pass = true)
    ∧ ∃ i : Fin es.length,
        find_fastest_compressor zf unzf tE tD original es = es.get i
        ∧ (∀ j : Fin es.length, tE (es.get i) ≤ tE (es.get j))
        ∧ (∀ j : Fin es.length, j < i → tE (es.get i) < tE (es.get j)) := by
  constructor
  · intro r hr
    obtain ⟨s, _hs, rfl⟩ :=
      measures_mem zf unzf tE tD true false false original es r hr
    rw [measureOne_fst_enc]
    simp
  · have hred : find_fastest_compressor zf unzf tE tD original es =
        (es.foldl (fun acc e => if tE e < acc.2 then (e, tE e) else acc)
          (NONE, (9999999 : ℚ))).1 := by
      unfold find_fastest_compressor
      rw [measures_eq_map, List.foldl_map]
      congr 1
      apply List.foldl_ext
      intro acc e _
      rw [measureOne_fst_enc]
      simp
    obtain ⟨e0, he0⟩ := List.exists_mem_of_ne_nil es hne
    obtain ⟨i, hfold, _, hmin, hfirst⟩ :=
      foldl_first_min tE es NONE 9999999 ⟨e0, he0, hlt e0 he0⟩
    exact ⟨i, by rw [hred, hfold], hmin, hfirst⟩

/-- Claim C5 witness: with encode times 3 ms for `LZ4` and 1 ms for `SHOCO`,
both below the sentinel, the fastest-encode selection property holds on the
candidate list `[LZ4, SHOCO]`. -/
theorem find_fastest_compressor_min_witness :
    (∀ r ∈ measures zW unzW tWfast tW true false false [1] [LZ4, SHOCO],
        r.pass = true)
    ∧ ∃ i : Fin ([LZ4, SHOCO] : List Nat).length,
        find_fastest_compressor zW unzW tWfast tW [1] [LZ4, SHOCO]
          = ([LZ4, SHOCO] : List Nat).get i
        ∧ (∀ j : Fin ([LZ4, SHOCO] : List Nat).length,
            tWfast (([LZ4, SHOCO] : List Nat).get i)
              ≤ tWfast (([LZ4, SHOCO] : List Nat).get j))
        ∧ (∀ j : Fin ([LZ4, SHOCO] : List Nat).length, j < i →
            tWfast (([LZ4, SHOCO] : List Nat).get i)
              < tWfast (([LZ4, SHOCO] : List Nat).get j)) :=
  find_fastest_compressor_min zW unzW tWfast tW [1] [LZ4, SHOCO]
    (by simp)
    (by intro e he
        rcases List.mem_cons.mp he with rfl | he'
        · norm_num [tWfast, LZ4, SHOCO]
        · rcases List.mem_singleton.mp he' with rfl
          norm_num [tWfast])

/-! ### Claims about the selection routines -/

/-- Claim C10: each selection routine returns `NONE` on an empty candidate
list, and also whenever no record satisfies its selection predicate (no
passing record clearing the ratio threshold, or none with a time below the
9999999 sentinel). -/
theorem find_best_defaults_to_none (zf unzf : List Nat → Nat → List Nat)
    (tE tD : Nat → ℚ) (original es : List Nat) :
    (find_smallest_compressor zf unzf tE tD original [] = NONE
     ∧ find_fastest_compressor zf unzf tE tD original [] = NONE
     ∧ find_fastest_decompressor zf unzf tE tD original [] = NONE)
    ∧ ((∀ r ∈ measures zf unzf tE tD true false false original es,
          ¬(r.pass = true ∧
            (100 : ℚ) - (NO_COMPRESSION_TRESHOLD : ℚ) / 100 ≤ r.ratio)) →
        find_smallest_compressor zf unzf tE tD original es = NONE)
    ∧ ((∀ r ∈ measures zf unzf tE tD true false false original es,
          ¬(r.pass = true ∧ r.enctime < 9999999)) →
        find_fastest_compressor zf unzf tE tD original es = NONE)
    ∧ ((∀ r ∈ measures zf unzf tE tD false true false original es,
          ¬(r.pass = true ∧ r.dectime < 9999999)) →
        find_fastest_decompressor zf unzf tE tD original es = NONE) := by
  refine ⟨⟨rfl, rfl, rfl⟩, ?_, ?_, ?_⟩
  · intro h
    unfold find_smallest_compressor
    rw [foldl_smallest_skip _ _ h]
  · intro h
    unfold find_fastest_compressor
    rw [foldl_enctime_skip _ _ (le_refl _) h]
  · intro h
    unfold find_fastest_decompressor
    rw [foldl_dectime_skip _ _ (le_refl _) h]

/-- The identity codec oracle: "compression" returns the payload itself. -/
def zId : List Nat → Nat → List Nat := fun o _ => o

/-- A clock oracle that reports exactly the 9999999 ms sentinel. -/
def tBig : Nat → ℚ := fun _ => 9999999

/-- Claim C10 witness: with an incompressible payload (ratio 0, below the
threshold) and times equal to the sentinel, all three selection routines
return `NONE` on the nonempty candidate list `[LZ4]`. -/
theorem find_best_defaults_to_none_witness :
    find_smallest_compressor zId zId tBig tBig [1] [LZ4] = NONE
    ∧ find_fastest_compressor zId zId tBig tBig [1] [LZ4] = NONE
    ∧ find_fastest_decompressor zId zId tBig tBig [1] [LZ4] = NONE := by
  have h := find_best_defaults_to_none zId zId tBig tBig [1] [LZ4]
  refine ⟨h.2.1 ?_, h.2.2.1 ?_, h.2.2.2 ?_⟩
  · intro r hr
    obtain ⟨s, _hs, rfl⟩ := measures_mem _ _ _ _ _ _ _ _ _ r hr
    rw [measureOne_fst_enc]
    simp [zId]
    norm_num [NO_COMPRESSION_TRESHOLD]
  · intro r hr
    obtain ⟨s, _hs, rfl⟩ := measures_mem _ _ _ _ _ _ _ _ _ r hr
    rw [measureOne_fst_enc]
    simp [tBig]
  · intro r hr
    obtain ⟨s, _hs, rfl⟩ := measures_mem _ _ _ _ _ _ _ _ _ r hr
    rw [measureOne_fst_noenc]
    simp [tBig]

/-- Oracle for the 50%/10% scenario of the spec: `LZ4` halves the 10-byte
payload (ratio 50%), every other scheme shrinks it to 9 bytes (ratio 10%). -/
def zC1 : List Nat → Nat → List Nat :=
  fun _ e => if e = LZ4 then List.replicate 5 0 else List.replicate 9 0

/-- Oracle for the 3% scenario of the spec: every scheme shrinks the
100-byte payload to 97 bytes (ratio 3%). -/
def zC3 : List Nat → Nat → List Nat := fun _ _ => List.replicate 97 0

/-- A decompressor oracle returning its input unchanged. -/
def unzTriv : List Nat → Nat → List Nat := fun zipped _ => zipped

/-- Claim C1 evaluation: the guard of `find_smallest_compressor`
(bundle.hpp:132) compares the ratio against
`100 - NO_COMPRESSION_TRESHOLD / 100.0 = 99.95`, not against the documented
5% threshold (bundle.hpp:21-22, "dont compress if compression ratio is below
5%"). Consequently, in the spec's own 50%/10% scenario the function returns
`NONE` instead of the 50%-ratio identifier `LZ4`. The 3% scenario still
returns `NONE`, agreeing with the claim. -/
theorem find_smallest_threshold_code_bug :
    find_smallest_compressor zC1 unzTriv tW tW (List.replicate 10 0)
        [LZ4, MINIZ] = NONE
    ∧ LZ4 ≠ NONE
    ∧ find_smallest_compressor zC3 unzTriv tW tW (List.replicate 100 0)
        [LZ4, MINIZ] = NONE
    ∧ (100 : ℚ) - (NO_COMPRESSION_TRESHOLD : ℚ) / 100 = 1999 / 20 := by
  refine ⟨?_, by decide, ?_, by norm_num [NO_COMPRESSION_TRESHOLD]⟩
  · have h : ∀ r ∈ measures zC1 unzTriv tW tW true false false
        (List.replicate 10 0) [LZ4, MINIZ],
        ¬(r.pass = true ∧
          (100 : ℚ) - (NO_COMPRESSION_TRESHOLD : ℚ) / 100 ≤ r.ratio) := by
      intro r hr
      obtain ⟨s, hs, rfl⟩ := measures_mem _ _ _ _ _ _ _ _ _ r hr
      rw [measureOne_fst_enc]
      rcases List.mem_cons.mp hs with rfl | hs'
      · norm_num [zC1, NO_COMPRESSION_TRESHOLD]
      · rcases List.mem_singleton.mp hs' with rfl
        norm_num [zC1, MINIZ, LZ4, NO_COMPRESSION_TRESHOLD]
    unfold find_smallest_compressor
    rw [foldl_smallest_skip _ _ h]
  · have h : ∀ r ∈ measures zC3 unzTriv tW tW true false false
        (List.replicate 100 0) [LZ4, MINIZ],
        ¬(r.pass = true ∧
          (100 : ℚ) - (NO_COMPRESSION_TRESHOLD : ℚ) / 100 ≤ r.ratio) := by
      intro r hr
      obtain ⟨s, _hs, rfl⟩ := measures_mem _ _ _ _ _ _ _ _ _ r hr
      rw [measureOne_fst_enc]
      norm_num [zC3, NO_COMPRESSION_TRESHOLD]
    unfold find_smallest_compressor
    rw [foldl_smallest_skip _ _ h]

/-- An encoder oracle whose output is visibly nonempty. -/
def zCX : List Nat → Nat → List Nat := fun _ _ => [9, 9]

/-- Claim C6 counterexample: in the invocation used by
`find_fastest_decompressor` (`do_enc = false, do_dec = true,
do_verify = false`), the decode step for candidate `LZ4` is applied to the
`zipped` buffer left from before the loop — the empty string — and not to
the compressed bytes `zCX [5] LZ4 = [9, 9]` that the candidate's encode step
would have produced. So it is not true that, in every `measures` invocation,
the decode step is applied to the bytes just produced by that same
candidate's encode step. -/
theorem measures_decode_input_counterexample :
    (measuresTr zCX unzTriv tW tW false true false [5] [] [LZ4]).map Prod.snd
      = [some ([] : List Nat)]
    ∧ ¬ ((measuresTr zCX unzTriv tW tW false true false [5] [] [LZ4]).map
          Prod.snd = [some (zCX [5] LZ4)]) := by
  constructor
  · rw [measuresTr_eq_map]
    simp [measureOne_snd]
  · rw [measuresTr_eq_map]
    simp [measureOne_snd, zCX]

/-- Claim C6 (amended): candidates are processed strictly in the order
supplied (the records' identifiers are the candidate list, in order); and
whenever the encode phase is enabled, the decode step for each candidate is
applied to exactly the compressed bytes just produced by that candidate's
encode step (`zf original s`) — encode completes before decode within the
iteration. When the encode phase is disabled, the decode step instead
receives the loop's initial (empty) `zipped` buffer. -/
theorem measures_order_and_decode_input (zf unzf : List Nat → Nat → List Nat)
    (tE tD : Nat → ℚ) (de dd dv : Bool) (original es : List Nat) :
    (measures zf unzf tE tD de dd dv original es).map measure.q = es
    ∧ (measuresTr zf unzf tE tD de dd dv original [] es).map Prod.snd
        = es.map (fun s =>
            if dd then some (if de then zf original s else []) else none) := by
  constructor
  · rw [measures_eq_map, List.map_map]
    have h : ∀ s ∈ es,
        (measure.q ∘ fun s => (measureOne zf unzf tE tD de dd dv original [] s).1) s
          = id s := fun s _ => measureOne_q zf unzf tE tD de dd dv original [] s
    rw [List.map_congr_left h, List.map_id]
  · rw [measuresTr_eq_map, List.map_map]
    apply List.map_congr_left
    intro s _
    simp [measureOne_snd]

/-! ### Claims about the high-level pack/unpack templates -/

/-- Claim C7 evaluation: packing a zero-length buffer does not succeed — it
throws `std::out_of_range`, because line 55 of the source evaluates
`buffer_in.at(0)` on the empty input container, whatever the codec
identifier and whatever the external codec would have done. -/
theorem pack_hl_empty_throws (boundf : Nat → Nat → Nat)
    (packf : Nat → List Nat → Nat → Option (List Nat × Nat)) (q : Nat) :
    pack_hl boundf packf q [] = Except.error cppError.out_of_range := rfl

/-- Claim C8: whenever the high-level `pack` returns (rather than throws),
a `false` result comes with the well-defined empty output container
(line 58 assigns a fresh `T2()`), and a `true` result means the codec
succeeded and the output container was resized to exactly the compressed
size the codec reported. -/
theorem pack_hl_failure_empty_success_sized (boundf : Nat → Nat → Nat)
    (packf : Nat → List Nat → Nat → Option (List Nat × Nat))
    (q : Nat) (bin : List Nat) (b : Bool) (out : List Nat)
    (h : pack_hl boundf packf q bin = Except.ok (b, out)) :
    (b = false → out = [])
    ∧ (b = true → ∃ w zl, packf q bin (boundf q bin.length) = some (w, zl)
        ∧ out = cppResize w zl ∧ out.length = zl) := by
  simp only [pack_hl] at h
  by_cases h1 : bin.length = 0
  · rw [if_pos h1] at h; cases h
  · rw [if_neg h1] at h
    by_cases h2 : (cppResize [] (boundf q bin.length)).length = 0
    · rw [if_pos h2] at h; cases h
    · rw [if_neg h2] at h
      cases hp : packf q bin (boundf q bin.length) with
      | none =>
          rw [hp] at h
          simp only [Except.ok.injEq, Prod.mk.injEq] at h
          obtain ⟨hb, hout⟩ := h
          subst hb; subst hout
          exact ⟨fun _ => rfl, fun hbt => nomatch hbt⟩
      | some wz =>
          obtain ⟨w, zl⟩ := wz
          rw [hp] at h
          simp only [Except.ok.injEq, Prod.mk.injEq] at h
          obtain ⟨hb, hout⟩ := h
          subst hb; subst hout
          constructor
          · exact fun hbf => nomatch hbf
          · intro hbt
            refine ⟨w, zl, rfl, rfl, ?_⟩
            exact cppResize_length w zl

/-- A worst-case-bound oracle: one byte of headroom over the input size. -/
def boundW : Nat → Nat → Nat := fun _ n => n + 1

/-- A low-level pack oracle that stores the payload as-is and reports its
length as the compressed size. -/
def packW : Nat → List Nat → Nat → Option (List Nat × Nat) :=
  fun _ bin _ => some (bin, bin.length)

/-- Claim C8 witness: a successful concrete pack of `[7]` returns `true`
with the output resized to exactly the reported compressed size 1. -/
theorem pack_hl_failure_empty_success_sized_witness :
    (true = false → ([7] : List Nat) = [])
    ∧ (true = true → ∃ w zl,
        packW 3 [7] (boundW 3 ([7] : List Nat).length) = some (w, zl)
        ∧ ([7] : List Nat) = cppResize w zl
        ∧ ([7] : List Nat).length = zl) :=
  pack_hl_failure_empty_success_sized boundW packW 3 [7] true [7] (by rfl)

/-- Claim C9: round-trip identity through the high-level templates. For any
low-level codec pair satisfying the spec's collaborator contract
(`CodecContract`, modelled from the spec since the codec bodies are external
to this repository), whenever the high-level `pack` succeeds on a payload
`x`, the high-level `unpack` — given an output container pre-sized to the
expected decompressed length `x.length`, as its contract requires — applied
to the compressed output reproduces `x` exactly. -/
theorem roundtrip_hl (boundf : Nat → Nat → Nat)
    (packf : Nat → List Nat → Nat → Option (List Nat × Nat))
    (unpackf : Nat → List Nat → Nat → Option (List Nat))
    (q : Nat) (x z : List Nat)
    (hc : CodecContract packf unpackf)
    (hp : pack_hl boundf packf q x = Except.ok (true, z)) :
    unpack_hl unpackf q (cppResize [] x.length) z = Except.ok (true, x) := by
  simp only [pack_hl] at hp
  by_cases h1 : x.length = 0
  · rw [if_pos h1] at hp; cases hp
  · rw [if_neg h1] at hp
    by_cases h2 : (cppResize [] (boundf q x.length)).length = 0
    · rw [if_pos h2] at hp; cases hp
    · rw [if_neg h2] at hp
      cases hpk : packf q x (boundf q x.length) with
      | none =>
          rw [hpk] at hp
          cases hp
      | some wz =>
          obtain ⟨w, zl⟩ := wz
          rw [hpk] at hp
          simp only [Except.ok.injEq, Prod.mk.injEq, true_and] at hp
          obtain ⟨hzl, hun⟩ := hc q x (boundf q x.length) w zl hpk
          have hxne : x ≠ [] := fun hx => h1 (by simp [hx])
          have hzl' : 0 < zl := hzl hxne
          subst hp
          have hb1 : ¬((cppResize w zl).length = 0) := by
            rw [cppResize_length]; omega
          have hb2 : ¬((cppResize [] x.length).length = 0) := by
            rw [cppResize_length]; exact h1
          simp only [unpack_hl]
          rw [if_neg hb1, if_neg hb2, cppResize_length, hun]
          simp [cppResize_self]

/-- The identity codec, used to witness the round-trip theorem: pack stores
the payload as-is and reports its length, unpack returns the stored bytes. -/
def packIdC : Nat → List Nat → Nat → Option (List Nat × Nat) :=
  fun _ x _ => some (x, x.length)

/-- The identity codec's unpack half. -/
def unpackIdC : Nat → List Nat → Nat → Option (List Nat) :=
  fun _ zin _ => some zin

/-- The identity codec satisfies the spec's collaborator contract. -/
lemma idCodec_contract : CodecContract packIdC unpackIdC := by
  intro q x cap w zl hp
  simp only [packIdC, Option.some.injEq, Prod.mk.injEq] at hp
  obtain ⟨hw, hzl⟩ := hp
  subst hw
  subst hzl
  refine ⟨fun hx => ?_, ?_⟩
  · cases x with
    | nil => exact absurd rfl hx
    | cons a l => simp
  · rw [cppResize_self]
    rfl

/-- Claim C9 witness: with the identity codec, the concrete payload `[7]`
packs successfully and unpacks back to itself. -/
theorem roundtrip_hl_witness :
    unpack_hl unpackIdC DEFAULT (cppResize [] ([7] : List Nat).length) [7]
      = Except.ok (true, [7]) :=
  roundtrip_hl boundW packIdC unpackIdC DEFAULT [7] [7] idCodec_contract
    (by rfl)
